import Mathlib

/-!  Verification of the indicator / risk / snapshot-store core of the
finance-agent repository.

The numeric code (`calculate_technical_indicators`,
`calculate_volatility_metrics`, `calculate_max_drawdown`) operates on a
pandas DataFrame of daily OHLCV bars.  We embed the price series as a list
of rational-valued bars; pandas float columns that may hold NaN are
embedded as `List (Option ℚ)` (with `none` playing NaN), and the two
places where an exact square root is taken (`rolling(20).std()` and
`np.sqrt(252)`) move to `ℝ` at the boundary via `Real.sqrt`.
IEEE-float division corner cases (x/0) are modelled explicitly at the
single spot where the source relies on them (the RSI `gain/loss` ratio).
-/

namespace FinAgent

/-- One daily OHLCV bar of the price series (the date index is never used
by the computations and is omitted). -/
structure Bar where
  openPrice : ℚ
  high : ℚ
  low : ℚ
  close : ℚ
  volume : ℚ
deriving DecidableEq

/-- pandas DataFrame model: the base OHLCV rows plus the named columns the
code assigns with `hist[name] = series`.  Assigned columns are float
series that may contain NaN, embedded as `List (Option ℝ)`. -/
structure DataFrame where
  rows : List Bar
  extra : List (String × List (Option ℝ))

/-- Arithmetic mean, `Series.mean()` of a window. -/
def meanQ (l : List ℚ) : ℚ := l.sum / l.length

/-- Sample variance with ddof = 1 (the pandas `Series.std()` default is
the square root of this). -/
def sampleVarQ (l : List ℚ) : ℚ :=
  (l.map (fun x => (x - meanQ l) ^ 2)).sum / ((l.length - 1 : ℕ) : ℚ)

/-- `Series.rolling(window=w)` followed by an aggregation `f`: position
`i` holds the aggregate of the trailing `w` entries once `w` entries are
available and NaN (`none`) before that. -/
def rollingApply (w : ℕ) (f : List ℚ → ℚ) (xs : List ℚ) : List (Option ℚ) :=
  (List.range xs.length).map (fun i =>
    if w ≤ i + 1 then some (f ((xs.take (i + 1)).drop (i + 1 - w))) else none)

/-- `Close.rolling(window=w).mean()`, the SMA column. -/
def smaCol (w : ℕ) (closes : List ℚ) : List (Option ℚ) := rollingApply w meanQ closes

/-- Day-over-day differences of a column starting from a previous value. -/
def diffsFrom (prev : ℚ) : List ℚ → List ℚ
  | [] => []
  | y :: ys => (y - prev) :: diffsFrom y ys

/-- `Series.diff()`: first entry NaN, then consecutive differences. -/
def diffs : List ℚ → List (Option ℚ)
  | [] => []
  | x :: xs => none :: (diffsFrom x xs).map some

/-- Positive part of a delta, used for the RSI gain series. -/
def gainOfD (d : ℚ) : ℚ := if 0 < d then d else 0

/-- Negated negative part of a delta, used for the RSI loss series. -/
def lossOfD (d : ℚ) : ℚ := -(if d < 0 then d else 0)

/-- `delta.where(delta > 0, 0)` applied entrywise: a NaN delta compares
false under `>` in pandas, so the leading NaN of `diff()` becomes `0`,
not NaN. -/
def gainVal : Option ℚ → ℚ
  | none => 0
  | some d => gainOfD d

/-- `-delta.where(delta < 0, 0)` applied entrywise (same NaN rule). -/
def lossVal : Option ℚ → ℚ
  | none => 0
  | some d => lossOfD d

/-- The rolling-14 average gain column `gain` of the source. -/
def gainCol (closes : List ℚ) : List (Option ℚ) :=
  rollingApply 14 meanQ ((diffs closes).map gainVal)

/-- The rolling-14 average loss column `loss` of the source. -/
def lossCol (closes : List ℚ) : List (Option ℚ) :=
  rollingApply 14 meanQ ((diffs closes).map lossVal)

/-- `100 - 100/(1 + gain/loss)` for one position, spelling out the IEEE
float outcomes the source relies on: `loss = 0, gain > 0` gives
`rs = inf` hence RSI `= 100`; `loss = 0, gain = 0` gives `rs = NaN`
hence RSI NaN; both inputs NaN (positions before the window fills) give
NaN.  `gain` and `loss` are rolling means of nonnegative series, so the
sign analysis is exhaustive. -/
def rsiCombine : Option ℚ → Option ℚ → Option ℚ
  | some g, some l =>
    if l = 0 then (if g = 0 then none else some 100)
    else some (100 - 100 / (1 + g / l))
  | _, _ => none

/-- The `RSI` column of the source. -/
def rsiCol (closes : List ℚ) : List (Option ℚ) :=
  List.zipWith rsiCombine (gainCol closes) (lossCol closes)

/-- One step of the `ewm(span, adjust=False)` recurrence with smoothing
factor `a`. -/
def ewmStep (a y x : ℚ) : ℚ := (1 - a) * y + a * x

/-- Tail of the exponential moving average starting from state `y`. -/
def ewmFrom (a y : ℚ) : List ℚ → List ℚ
  | [] => []
  | x :: xs => ewmStep a y x :: ewmFrom a (ewmStep a y x) xs

/-- `Series.ewm(span, adjust=False).mean()`: seeded by the first value,
then the standard recurrence. -/
def ewmList (a : ℚ) : List ℚ → List ℚ
  | [] => []
  | x :: xs => x :: ewmFrom a x xs

/-- Smoothing factor `2/(span+1)` used by `ewm(span=· )`. -/
def alphaOfSpan (span : ℕ) : ℚ := 2 / (span + 1)

/-- The `MACD` column: EMA(12) minus EMA(26) of close, entrywise. -/
def macdCol (closes : List ℚ) : List ℚ :=
  List.zipWith (fun x y => x - y) (ewmList (alphaOfSpan 12) closes)
    (ewmList (alphaOfSpan 26) closes)

/-- The `Signal_Line` column: EMA(9) of the MACD column. -/
def signalCol (closes : List ℚ) : List ℚ := ewmList (alphaOfSpan 9) (macdCol closes)

/-- `Close.rolling(20).std()` as a float column: square root of the
rolling ddof-1 variance. -/
noncomputable def stdCol (closes : List ℚ) : List (Option ℝ) :=
  (rollingApply 20 sampleVarQ closes).map (Option.map (fun (v : ℚ) => Real.sqrt (v : ℝ)))

/-- `BB_Middle + 2 * Close.rolling(20).std()` entrywise (NaN propagates). -/
noncomputable def bbUpperCol (closes : List ℚ) : List (Option ℝ) :=
  List.zipWith (fun m s =>
    match m, s with
    | some mq, some sr => some ((mq : ℝ) + 2 * sr)
    | _, _ => none) (smaCol 20 closes) (stdCol closes)

/-- `BB_Middle - 2 * Close.rolling(20).std()` entrywise (NaN propagates). -/
noncomputable def bbLowerCol (closes : List ℚ) : List (Option ℝ) :=
  List.zipWith (fun m s =>
    match m, s with
    | some mq, some sr => some ((mq : ℝ) - 2 * sr)
    | _, _ => none) (smaCol 20 closes) (stdCol closes)

/-- Last entry of an optional-valued column, as read by `iloc[-1]`
(`none` both for an empty column and for a NaN last entry). -/
def lastOpt (l : List (Option ℚ)) : Option ℚ := l.getLast?.join

/-- Last entry of a float column. -/
def lastOptR (l : List (Option ℝ)) : Option ℝ := l.getLast?.join

/-- Cast an optional rational column to a float column for storage in the
DataFrame. -/
def castCol (l : List (Option ℚ)) : List (Option ℝ) :=
  l.map (Option.map (fun (q : ℚ) => (q : ℝ)))

/-- Store a NaN-free rational column as a float column. -/
def plainCol (l : List ℚ) : List (Option ℝ) := l.map (fun (q : ℚ) => some (q : ℝ))

/-- `extra[name] = col`: pandas column assignment replaces an existing
column of that name and otherwise appends it at the end. -/
def setCol (extra : List (String × List (Option ℝ))) (name : String)
    (col : List (Option ℝ)) : List (String × List (Option ℝ)) :=
  if extra.any (fun p => p.fst = name) then
    extra.map (fun p => if p.fst = name then (name, col) else p)
  else extra ++ [(name, col)]

/-- `hist[name] = col` on the DataFrame. -/
def addCol (df : DataFrame) (name : String) (col : List (Option ℝ)) : DataFrame :=
  { df with extra := setCol df.extra name col }

/-- The mapping returned by `calculate_technical_indicators`: the `price`,
`moving_averages`, `momentum` and `volatility` sub-groups flattened, every
value read off the last row (`latest = hist.iloc[-1]`). -/
structure Indicators where
  current : ℚ
  openPrice : ℚ
  high : ℚ
  low : ℚ
  volume : ℚ
  sma_20 : Option ℝ
  sma_50 : Option ℝ
  sma_200 : Option ℝ
  rsi : Option ℝ
  macd : Option ℝ
  signal_line : Option ℝ
  bollinger_upper : Option ℝ
  bollinger_middle : Option ℝ
  bollinger_lower : Option ℝ

/-- The result record read off the last bar `b` of the series: each
indicator value is the last entry of its column. -/
noncomputable def latestIndicators (closes : List ℚ) (b : Bar) : Indicators where
  current := b.close
  openPrice := b.openPrice
  high := b.high
  low := b.low
  volume := b.volume
  sma_20 := (lastOpt (smaCol 20 closes)).map (fun (q : ℚ) => (q : ℝ))
  sma_50 := (lastOpt (smaCol 50 closes)).map (fun (q : ℚ) => (q : ℝ))
  sma_200 := (lastOpt (smaCol 200 closes)).map (fun (q : ℚ) => (q : ℝ))
  rsi := (lastOpt (rsiCol closes)).map (fun (q : ℚ) => (q : ℝ))
  macd := ((macdCol closes).getLast?).map (fun (q : ℚ) => (q : ℝ))
  signal_line := ((signalCol closes).getLast?).map (fun (q : ℚ) => (q : ℝ))
  bollinger_upper := lastOptR (bbUpperCol closes)
  bollinger_middle := (lastOpt (smaCol 20 closes)).map (fun (q : ℚ) => (q : ℝ))
  bollinger_lower := lastOptR (bbLowerCol closes)

/-- `calculate_technical_indicators` (technical_agent.py, lines 13-53).
The function first assigns the nine indicator columns onto the caller's
DataFrame (mutating it), then reads `hist.iloc[-1]`, which raises on an
empty series; the raise is embedded as a `none` second component.  The
returned first component is the (mutated) DataFrame after the call. -/
noncomputable def calculate_technical_indicators (hist : DataFrame) :
    DataFrame × Option Indicators :=
  let closes := hist.rows.map Bar.close
  let df1 := addCol hist "SMA_20" (castCol (smaCol 20 closes))
  let df2 := addCol df1 "SMA_50" (castCol (smaCol 50 closes))
  let df3 := addCol df2 "SMA_200" (castCol (smaCol 200 closes))
  let df4 := addCol df3 "RSI" (castCol (rsiCol closes))
  let df5 := addCol df4 "MACD" (plainCol (macdCol closes))
  let df6 := addCol df5 "Signal_Line" (plainCol (signalCol closes))
  let df7 := addCol df6 "BB_Middle" (castCol (smaCol 20 closes))
  let df8 := addCol df7 "BB_Upper" (bbUpperCol closes)
  let df9 := addCol df8 "BB_Lower" (bbLowerCol closes)
  (df9, (hist.rows.getLast?).map (latestIndicators closes))

/-- Daily returns tail: `Close.pct_change().dropna()` starting after a
previous close.  A zero previous close gives `0/0 = NaN` on a flat step,
which `dropna` removes; the step is dropped here.  (A zero previous close
followed by a different close gives an IEEE infinity, which has no
rational embedding; it is likewise dropped — no claim exercises it.) -/
def pctPairs (prev : ℚ) : List ℚ → List ℚ
  | [] => []
  | y :: ys => if prev = 0 then pctPairs y ys else ((y - prev) / prev) :: pctPairs y ys

/-- `Close.pct_change().dropna()`: percent change between consecutive
bars, the first bar having no return. -/
def pctChangeDropna : List ℚ → List ℚ
  | [] => []
  | x :: xs => pctPairs x xs

/-- `Series.std()` (ddof = 1): NaN (`none`) when fewer than two
observations, else the sample variance; the square root is taken at the
call site. -/
def sampleVarOpt (l : List ℚ) : Option ℚ :=
  if l.length ≤ 1 then none else some (sampleVarQ l)

/-- Linear interpolation at rank `q/100 * (n-1)` inside a sorted array. -/
def percentileSorted (q : ℚ) (sorted : List ℚ) (n : ℕ) : ℚ :=
  let pos : ℚ := q / 100 * ((n - 1 : ℕ) : ℚ)
  let i : ℕ := (Int.toNat (Int.floor pos))
  let lo := sorted.getD i 0
  let hi := sorted.getD (i + 1) lo
  lo + (pos - (i : ℚ)) * (hi - lo)

/-- `np.percentile(xs, q)` with the default linear interpolation between
order statistics; raises (`none`) on an empty array. -/
def percentileQ (q : ℚ) (xs : List ℚ) : Option ℚ :=
  match xs with
  | [] => none
  | x :: rest =>
    some (percentileSorted q (List.insertionSort (fun a b => a ≤ b) (x :: rest))
      (x :: rest).length)

/-- Binary maximum, written out so that concrete inputs evaluate. -/
def max2 (a b : ℚ) : ℚ := if a ≤ b then b else a

/-- Binary minimum, written out so that concrete inputs evaluate. -/
def min2 (a b : ℚ) : ℚ := if a ≤ b then a else b

/-- Running maximum tail, state `m`:
`prices.expanding(min_periods=1).max()`. -/
def runMaxFrom (m : ℚ) : List ℚ → List ℚ
  | [] => []
  | y :: ys => max2 m y :: runMaxFrom (max2 m y) ys

/-- `prices.expanding(min_periods=1).max()`. -/
def runningMax : List ℚ → List ℚ
  | [] => []
  | x :: xs => x :: runMaxFrom x xs

/-- `Series.min()`: `none` on an empty series (pandas NaN). -/
def minQ : List ℚ → Option ℚ
  | [] => none
  | x :: xs => some (xs.foldl min2 x)

/-- `calculate_max_drawdown` (risk_analysis_agent.py, lines 28-31):
drawdown `(price - peak)/peak` against the running peak, minimised. -/
def calculate_max_drawdown (prices : List ℚ) : Option ℚ :=
  minQ (List.zipWith (fun p pk => (p - pk) / pk) prices (runningMax prices))

/-- The mapping returned by `calculate_volatility_metrics`.  The two
volatility fields are `Option ℝ` because `Series.std()` yields NaN on a
single return and the values involve square roots. -/
structure RiskMetrics where
  daily_volatility : Option ℝ
  annualized_volatility : Option ℝ
  var_95 : ℚ
  var_99 : ℚ
  max_drawdown : Option ℚ

/-- `calculate_volatility_metrics` (risk_analysis_agent.py, lines 13-26).
`np.percentile` raises on an empty return series (empty or single-bar
input), embedded as `none`; otherwise every field is computed. -/
noncomputable def calculate_volatility_metrics (hist : DataFrame) : Option RiskMetrics :=
  let closes := hist.rows.map Bar.close
  let returns := pctChangeDropna closes
  if returns = [] then none
  else some
    { daily_volatility := (sampleVarOpt returns).map (fun (v : ℚ) => Real.sqrt (v : ℝ))
      annualized_volatility :=
        (sampleVarOpt returns).map (fun (v : ℚ) => Real.sqrt (v : ℝ) * Real.sqrt 252)
      var_95 := (percentileQ 5 returns).getD 0
      var_99 := (percentileQ 1 returns).getD 0
      max_drawdown := calculate_max_drawdown closes }

/-!  ### SnapshotStore: `FileUtils` (file_utils.py)

The store works on a flat directory of JSON files.  We model the
directory as a list of file entries in filesystem (glob) enumeration
order; each entry carries its name, its creation time (an integer clock,
strictly finer than the wall-clock second of the real code), its parsed
JSON content, and a `deletable` flag modelling whether `os.remove` would
succeed or raise `OSError`.  `json.dump`/`json.load` round-trip a
JSON-serializable payload to the same JSON value, so contents are stored
as JSON values directly. -/

/-- A JSON value.  Objects are association lists with the first binding
of a key the visible one. -/
inductive Json where
  | null : Json
  | bool : Bool → Json
  | num : ℚ → Json
  | str : String → Json
  | arr : List Json → Json
  | obj : List (String × Json) → Json

/-- `dict.get(key)`: the value bound to `key` in an object, if any. -/
def jsonGet (j : Json) (key : String) : Option Json :=
  match j with
  | .obj kvs => (kvs.find? (fun p => p.fst == key)).map Prod.snd
  | _ => none

/-- Python `str()` of a JSON value as interpolated into the file name.
Honest for the string/None/bool scalars the repository stores in the
`symbol` field; numeric and composite renderings are abstracted (no
claim depends on them). -/
def pyStr : Json → String
  | .str s => s
  | .null => "None"
  | .bool true => "True"
  | .bool false => "False"
  | .num q => toString q
  | .arr _ => "list"
  | .obj _ => "dict"

/-- One file of the data directory. -/
structure FileEntry where
  name : String
  ctime : ℤ
  content : Json
  deletable : Bool

/-- Boolean list-prefix test (character by character). -/
def prefixHolds : List Char → List Char → Bool
  | [], _ => true
  | _ :: _, [] => false
  | a :: as, b :: bs => a == b && prefixHolds as bs

/-- Boolean list-suffix test. -/
def suffixHolds (s l : List Char) : Bool := prefixHolds s.reverse l.reverse

/-- `{symbol}_{prefix}_{timestamp}.json`; the `YYYYMMDD_HHMMSS` wall
clock rendering is abstracted to the decimal rendering of the integer
clock (no claim inspects the digits). -/
def mkFileName (sym pre : String) (now : ℤ) : String :=
  sym ++ "_" ++ pre ++ "_" ++ toString now ++ ".json"

/-- `FileUtils.store_json_info` (file_utils.py, lines 18-28): pick the
symbol (argument, else payload's `symbol` field via `str()`, else
`"unknown"`), write the payload unchanged under
`{symbol}_{prefix}_{timestamp}.json`, return the path.  The new file is
appended to the directory listing with creation time `now`. -/
def store_json_info (fs : List FileEntry) (now : ℤ) (info : Json)
    (symbol : Option String) (pre : String) : List FileEntry × String :=
  let sym := match symbol with
    | some s => s
    | none => match jsonGet info "symbol" with
      | some v => pyStr v
      | none => "unknown"
  let name := mkFileName sym pre now
  (fs ++ [{ name := name, ctime := now, content := info, deletable := true }], name)

/-- glob pattern `{symbol}_{prefix}_*.json` against a file name: the
literal head is a prefix, `.json` is a suffix, and the `*` consumes the
(possibly empty) remainder. -/
def globMatch (sym pre name : String) : Bool :=
  prefixHolds (sym ++ "_" ++ pre ++ "_").data name.data
    && suffixHolds ".json".data name.data
    && decide ((sym ++ "_" ++ pre ++ "_").data.length + 5 ≤ name.data.length)

/-- `max(files, key=os.path.getctime)`: Python `max` keeps the first of
equal keys, replacing the best only on a strictly larger key. -/
def pickLatest (f : FileEntry) (rest : List FileEntry) : FileEntry :=
  rest.foldl (fun a b => if a.ctime < b.ctime then b else a) f

/-- `FileUtils.find_latest_json_file` (file_utils.py, lines 41-48):
glob for `{symbol}_{prefix}_*.json`, return the match with the newest
creation time, or `none` when nothing matches. -/
def find_latest_json_file (fs : List FileEntry) (sym pre : String) : Option FileEntry :=
  match fs.filter (fun f => globMatch sym pre f.name) with
  | [] => none
  | f :: rest => some (pickLatest f rest)

/-- `FileUtils.read_latest_json_file` (file_utils.py, lines 30-39): same
glob-and-newest resolution, then parse the JSON body. -/
def read_latest_json_file (fs : List FileEntry) (sym pre : String) : Option Json :=
  (find_latest_json_file fs sym pre).map FileEntry.content

/-- A name survives the leading `*` of a glob: glob never matches hidden
files (a leading dot). -/
def notHidden : List Char → Bool
  | [] => false
  | c :: _ => c != '.'

/-- glob pattern `*.json`. -/
def matchPlainJson (name : String) : Bool :=
  notHidden name.data && suffixHolds ".json".data name.data

/-- glob pattern `*_{prefix}_*.json`: some occurrence of `_{prefix}_`
ends at least five characters before the end, so the trailing `*` plus
`.json` fit after it. -/
def matchPrefixedJson (p : String) (name : String) : Bool :=
  notHidden name.data && suffixHolds ".json".data name.data
    && (List.range name.data.length).any (fun i =>
      prefixHolds ("_" ++ p ++ "_").data (name.data.drop i)
        && decide (i + ("_" ++ p ++ "_").data.length + 5 ≤ name.data.length))

/-- `FileUtils.list_all_files` (file_utils.py, lines 50-57): glob
`*_{prefix}_*.json` when a prefix is given and `*.json` otherwise. -/
def list_all_files (fs : List FileEntry) (pre : Option String) : List FileEntry :=
  match pre with
  | some p => fs.filter (fun f => matchPrefixedJson p f.name)
  | none => fs.filter (fun f => matchPlainJson f.name)

/-- `FileUtils.delete_old_files` (file_utils.py, lines 59-73): walk the
`*.json` listing, remove every file created before `now - days`,
swallowing `OSError` (a non-`deletable` file stays and is not counted),
and return the directory with the deleted files gone together with the
count of successful deletions. -/
def delete_old_files (fs : List FileEntry) (now : ℤ) (days : ℕ) : List FileEntry × ℕ :=
  let old := fun (f : FileEntry) => decide (f.ctime < now - (days : ℤ))
  let removed := fun (f : FileEntry) => matchPlainJson f.name && old f && f.deletable
  (fs.filter (fun f => !(removed f)),
    ((list_all_files fs none).filter (fun f => old f && f.deletable)).length)

/-!  ### Spec-side definitions

These follow the wording of the specification, to be compared with the
column machinery above. -/

/-- The trailing `w` closes of the series (spec: "the trailing `window`
bars, evaluated at the last bar"). -/
def trailingWindow (w : ℕ) (closes : List ℚ) : List ℚ :=
  closes.drop (closes.length - w)

/-- The day-over-day deltas of the close column (spec: "day-over-day
close deltas"). -/
def realDeltas : List ℚ → List ℚ
  | [] => []
  | c :: cs => diffsFrom c cs

/-- The trailing 14 day-over-day deltas at the last bar. -/
def trailing14 (closes : List ℚ) : List ℚ :=
  (realDeltas closes).drop ((realDeltas closes).length - 14)

/-- Last value of the exponential-moving-average recurrence described in
the spec: `y_0 = x_0`, `y_t = (1 - a) * y_(t-1) + a * x_t`, no bias
adjustment; `none` for an empty series. -/
def emaLastSpec (a : ℚ) : List ℚ → Option ℚ
  | [] => none
  | x :: xs => some (xs.foldl (fun y xi => ewmStep a y xi) x)

/-!  ### Basic lemmas -/

theorem max2_eq_max (a b : ℚ) : max2 a b = max a b := by
  rw [max2, max_def]

theorem min2_eq_min (a b : ℚ) : min2 a b = min a b := by
  rw [min2, min_def]

theorem diffsFrom_length (prev : ℚ) (l : List ℚ) : (diffsFrom prev l).length = l.length := by
  induction l generalizing prev with
  | nil => rfl
  | cons y ys ih => simp [diffsFrom, ih]

theorem diffs_length (l : List ℚ) : (diffs l).length = l.length := by
  cases l with
  | nil => rfl
  | cons x xs => simp [diffs, diffsFrom_length]

theorem rollingApply_length (w : ℕ) (f : List ℚ → ℚ) (xs : List ℚ) :
    (rollingApply w f xs).length = xs.length := by
  simp [rollingApply]

theorem getLast?_range_map {α : Type} (g : ℕ → α) (n : ℕ) (h : 0 < n) :
    ((List.range n).map g).getLast? = some (g (n - 1)) := by
  rw [List.getLast?_eq_getElem?]
  simp only [List.length_map, List.length_range, List.getElem?_map]
  rw [List.getElem?_range (by omega)]
  rfl

/-- Last entry of a rolling aggregate: the aggregate of the trailing `w`
entries if the series has at least `w` entries, NaN otherwise. -/
theorem rollingApply_getLast (w : ℕ) (f : List ℚ → ℚ) (xs : List ℚ) (h : xs ≠ []) :
    (rollingApply w f xs).getLast? =
      some (if w ≤ xs.length then some (f (xs.drop (xs.length - w))) else none) := by
  have hn : 0 < xs.length := List.length_pos.mpr h
  rw [rollingApply, getLast?_range_map _ _ hn]
  congr 1
  have h1 : xs.length - 1 + 1 = xs.length := by omega
  rw [h1, List.take_length]

theorem getLast?_zipWith {α β γ : Type} (f : α → β → γ) :
    ∀ (l1 : List α) (l2 : List β), l1.length = l2.length →
      ∀ (a : α) (b : β), l1.getLast? = some a → l2.getLast? = some b →
        (List.zipWith f l1 l2).getLast? = some (f a b) := by
  intro l1 l2 hlen a b h1 h2
  obtain ⟨ys, rfl⟩ := List.getLast?_eq_some_iff.mp h1
  obtain ⟨zs, rfl⟩ := List.getLast?_eq_some_iff.mp h2
  have hyz : ys.length = zs.length := by
    simpa using hlen
  rw [List.zipWith_append _ _ _ _ _ hyz]
  simp

theorem ewmFrom_length (a : ℚ) (y : ℚ) (l : List ℚ) :
    (ewmFrom a y l).length = l.length := by
  induction l generalizing y with
  | nil => rfl
  | cons x xs ih => simp [ewmFrom, ih]

theorem ewmList_length (a : ℚ) (l : List ℚ) : (ewmList a l).length = l.length := by
  cases l with
  | nil => rfl
  | cons x xs => simp [ewmList, ewmFrom_length]

theorem ewmFrom_last (a : ℚ) :
    ∀ (xs : List ℚ) (y : ℚ),
      (y :: ewmFrom a y xs).getLast? = some (xs.foldl (fun s xi => ewmStep a s xi) y) := by
  intro xs
  induction xs with
  | nil => intro y; rfl
  | cons x rest ih =>
    intro y
    rw [ewmFrom, List.getLast?_cons_cons, ih (ewmStep a y x), List.foldl_cons]

/-- The last entry of the source's `ewm` column is exactly the spec's
EMA recurrence evaluated at the last bar. -/
theorem ewmList_getLast (a : ℚ) (l : List ℚ) :
    (ewmList a l).getLast? = emaLastSpec a l := by
  cases l with
  | nil => rfl
  | cons x xs => rw [ewmList, emaLastSpec, ewmFrom_last]

theorem meanQ_nonneg (l : List ℚ) (h : ∀ x ∈ l, 0 ≤ x) : 0 ≤ meanQ l := by
  have hs : 0 ≤ l.sum := List.sum_nonneg h
  have hl : (0 : ℚ) ≤ l.length := by positivity
  exact div_nonneg hs hl

theorem meanQ_of_all_zero (l : List ℚ) (h : ∀ x ∈ l, x = 0) : meanQ l = 0 := by
  rw [meanQ, List.sum_eq_zero h, zero_div]

theorem sum_zero_of_nonneg (l : List ℚ) (h : ∀ x ∈ l, 0 ≤ x) (hs : l.sum = 0) :
    ∀ x ∈ l, x = 0 := by
  induction l with
  | nil => simp
  | cons y ys ih =>
    have hy : 0 ≤ y := h y (by simp)
    have hys : 0 ≤ ys.sum := List.sum_nonneg (fun x hx => h x (by simp [hx]))
    rw [List.sum_cons] at hs
    have hy0 : y = 0 := by linarith
    have hsum : ys.sum = 0 := by linarith
    intro x hx
    rcases List.mem_cons.mp hx with h1 | h2
    · rw [h1, hy0]
    · exact ih (fun z hz => h z (by simp [hz])) hsum x h2

theorem all_zero_of_meanQ_zero (l : List ℚ) (hne : l ≠ []) (h : ∀ x ∈ l, 0 ≤ x)
    (hm : meanQ l = 0) : ∀ x ∈ l, x = 0 := by
  have hl : ((l.length : ℚ)) ≠ 0 := by
    have h0 : l.length ≠ 0 := by
      simpa [List.length_eq_zero] using hne
    exact_mod_cast Nat.cast_ne_zero.mpr h0
  rw [meanQ, div_eq_zero_iff] at hm
  rcases hm with hs | hs
  · exact sum_zero_of_nonneg l h hs
  · exact absurd hs hl

theorem foldl_min2_mem (l : List ℚ) (a : ℚ) :
    l.foldl min2 a = a ∨ l.foldl min2 a ∈ l := by
  induction l generalizing a with
  | nil => left; rfl
  | cons y ys ih =>
    rw [List.foldl_cons]
    rcases ih (min2 a y) with h | h
    · rw [h, min2_eq_min]
      rcases min_choice a y with h1 | h1
      · left; exact h1
      · right; simp [h1]
    · right; simp [h]

theorem minQ_mem (l : List ℚ) (m : ℚ) (h : minQ l = some m) : m ∈ l := by
  cases l with
  | nil => simp [minQ] at h
  | cons x xs =>
    rw [minQ, Option.some_inj] at h
    rcases foldl_min2_mem xs x with h1 | h1
    · simp [← h, h1]
    · simp [← h, h1]

/-!  ### The RSI column at the last bar -/

/-- The trailing-14 window of the gain/loss series, read off the diffed
column, is the image of the trailing 14 day-over-day deltas: with at
least 15 bars the leading NaN of `diff()` has left the window. -/
theorem diffs_map_drop (f : Option ℚ → ℚ) (g : ℚ → ℚ) (hfg : ∀ d, f (some d) = g d)
    (c : ℚ) (cs : List ℚ) (h : 15 ≤ (c :: cs).length) :
    ((diffs (c :: cs)).map f).drop ((c :: cs).length - 14) =
      (trailing14 (c :: cs)).map g := by
  have hcs : 14 ≤ cs.length := by
    simpa using h
  have hlen : (c :: cs).length - 14 = (cs.length - 14) + 1 := by
    simp only [List.length_cons]
    omega
  rw [diffs, List.map_cons, hlen, List.drop_succ_cons, List.map_map]
  have hmap : (diffsFrom c cs).map (f ∘ some) = (diffsFrom c cs).map g :=
    List.map_congr_left (fun d _ => hfg d)
  have ht : trailing14 (c :: cs) = (diffsFrom c cs).drop (cs.length - 14) := by
    rw [trailing14, realDeltas, diffsFrom_length]
  rw [hmap, ht, List.map_drop]

/-- The last entries of the rolling gain and loss columns, with at least
15 bars: means of the mapped trailing 14 deltas. -/
theorem gainCol_getLast (closes : List ℚ) (h : 15 ≤ closes.length) :
    (gainCol closes).getLast? =
      some (some (meanQ ((trailing14 closes).map gainOfD))) := by
  cases closes with
  | nil => simp at h
  | cons c cs =>
    have hlen : ((diffs (c :: cs)).map gainVal).length = (c :: cs).length := by
      simp [diffs_length]
    have hne : (diffs (c :: cs)).map gainVal ≠ [] := by
      intro hnil
      rw [hnil] at hlen
      simp at hlen
    rw [gainCol, rollingApply_getLast _ _ _ hne, hlen,
      if_pos (by omega), diffs_map_drop gainVal gainOfD (fun d => rfl) c cs h]

theorem lossCol_getLast (closes : List ℚ) (h : 15 ≤ closes.length) :
    (lossCol closes).getLast? =
      some (some (meanQ ((trailing14 closes).map lossOfD))) := by
  cases closes with
  | nil => simp at h
  | cons c cs =>
    have hlen : ((diffs (c :: cs)).map lossVal).length = (c :: cs).length := by
      simp [diffs_length]
    have hne : (diffs (c :: cs)).map lossVal ≠ [] := by
      intro hnil
      rw [hnil] at hlen
      simp at hlen
    rw [lossCol, rollingApply_getLast _ _ _ hne, hlen,
      if_pos (by omega), diffs_map_drop lossVal lossOfD (fun d => rfl) c cs h]

/-- With at least 15 bars, the RSI at the last bar is the combination of
the trailing-14 average gain and average loss. -/
theorem rsi_last (closes : List ℚ) (h : 15 ≤ closes.length) :
    lastOpt (rsiCol closes) =
      rsiCombine (some (meanQ ((trailing14 closes).map gainOfD)))
        (some (meanQ ((trailing14 closes).map lossOfD))) := by
  have hg := gainCol_getLast closes h
  have hl := lossCol_getLast closes h
  have hlens : (gainCol closes).length = (lossCol closes).length := by
    simp [gainCol, lossCol, rollingApply_length, diffs_length]
  rw [lastOpt, rsiCol, getLast?_zipWith rsiCombine _ _ hlens _ _ hg hl]
  rfl

/-- The trailing-14 delta window has exactly 14 entries once the series
has at least 15 bars. -/
theorem trailing14_length (closes : List ℚ) (h : 15 ≤ closes.length) :
    (trailing14 closes).length = 14 := by
  cases closes with
  | nil => simp at h
  | cons c cs =>
    have hcs : 14 ≤ cs.length := by
      simpa using h
    rw [trailing14, realDeltas, List.length_drop, diffsFrom_length]
    omega

/-- Projection lemmas for `latestIndicators`. -/
theorem latestIndicators_rsi (closes : List ℚ) (b : Bar) :
    (latestIndicators closes b).rsi =
      (lastOpt (rsiCol closes)).map (fun (q : ℚ) => (q : ℝ)) := rfl

theorem latestIndicators_sma_20 (closes : List ℚ) (b : Bar) :
    (latestIndicators closes b).sma_20 =
      (lastOpt (smaCol 20 closes)).map (fun (q : ℚ) => (q : ℝ)) := rfl

theorem latestIndicators_sma_50 (closes : List ℚ) (b : Bar) :
    (latestIndicators closes b).sma_50 =
      (lastOpt (smaCol 50 closes)).map (fun (q : ℚ) => (q : ℝ)) := rfl

theorem latestIndicators_sma_200 (closes : List ℚ) (b : Bar) :
    (latestIndicators closes b).sma_200 =
      (lastOpt (smaCol 200 closes)).map (fun (q : ℚ) => (q : ℝ)) := rfl

theorem latestIndicators_macd (closes : List ℚ) (b : Bar) :
    (latestIndicators closes b).macd =
      ((macdCol closes).getLast?).map (fun (q : ℚ) => (q : ℝ)) := rfl

theorem latestIndicators_signal (closes : List ℚ) (b : Bar) :
    (latestIndicators closes b).signal_line =
      ((signalCol closes).getLast?).map (fun (q : ℚ) => (q : ℝ)) := rfl

theorem latestIndicators_bb_mid (closes : List ℚ) (b : Bar) :
    (latestIndicators closes b).bollinger_middle =
      (lastOpt (smaCol 20 closes)).map (fun (q : ℚ) => (q : ℝ)) := rfl

theorem latestIndicators_bb_up (closes : List ℚ) (b : Bar) :
    (latestIndicators closes b).bollinger_upper = lastOptR (bbUpperCol closes) := rfl

theorem latestIndicators_bb_lo (closes : List ℚ) (b : Bar) :
    (latestIndicators closes b).bollinger_lower = lastOptR (bbLowerCol closes) := rfl

/-- The second component of `calculate_technical_indicators`, unfolded. -/
theorem calcTI_snd (df : DataFrame) :
    (calculate_technical_indicators df).snd =
      (df.rows.getLast?).map (latestIndicators (df.rows.map Bar.close)) := rfl

theorem gainOfD_nonneg (d : ℚ) : 0 ≤ gainOfD d := by
  rw [gainOfD]
  split <;> linarith

theorem lossOfD_nonneg (d : ℚ) : 0 ≤ lossOfD d := by
  rw [lossOfD]
  split <;> linarith

theorem eq_zero_of_parts (d : ℚ) (hg : gainOfD d = 0) (hl : lossOfD d = 0) : d = 0 := by
  rw [gainOfD] at hg
  rw [lossOfD] at hl
  by_cases h1 : 0 < d
  · rw [if_pos h1] at hg
    exact hg
  · by_cases h2 : d < 0
    · rw [if_pos h2, neg_eq_zero] at hl
      exact hl
    · linarith

theorem lossOfD_of_nonneg (d : ℚ) (h : 0 ≤ d) : lossOfD d = 0 := by
  rw [lossOfD, if_neg (by linarith), neg_zero]

/-!  ### Claims -/

/-- C1: an empty price series makes `calculate_technical_indicators`
fail (the `hist.iloc[-1]` read raises, embedded as a `none` result), and
an empty or single-bar series makes `calculate_volatility_metrics` fail
(`np.percentile` over an empty return series raises). -/
theorem c1_insufficient_data :
    (∀ df : DataFrame, df.rows = [] → (calculate_technical_indicators df).snd = none) ∧
    (∀ df : DataFrame, df.rows.length ≤ 1 → calculate_volatility_metrics df = none) := by
  constructor
  · intro df h
    rw [calcTI_snd, h]
    rfl
  · intro df h
    rcases df with ⟨rows, extra⟩
    rcases rows with _ | ⟨b, rest⟩
    · rfl
    · rcases rest with _ | ⟨b2, rest2⟩
      · rfl
      · simp at h

/-- Witness for C1 at the empty DataFrame. -/
theorem c1_insufficient_data_witness :
    (calculate_technical_indicators ⟨[], []⟩).snd = none ∧
    calculate_volatility_metrics ⟨[], []⟩ = none :=
  ⟨c1_insufficient_data.1 ⟨[], []⟩ rfl,
    c1_insufficient_data.2 ⟨[], []⟩ (by simp)⟩

/-- C2 (amended): `calculate_technical_indicators` leaves the bars — and
hence every pre-existing column value — of the caller's series unchanged,
but it does not leave the series itself unchanged: it assigns the nine
indicator columns onto the caller's DataFrame, so a series passed in with
only its base columns comes back carrying exactly
SMA_20, SMA_50, SMA_200, RSI, MACD, Signal_Line, BB_Middle, BB_Upper,
BB_Lower. -/
theorem c2_mutation_shape (df : DataFrame) :
    (calculate_technical_indicators df).fst.rows = df.rows ∧
      (df.extra = [] →
        (calculate_technical_indicators df).fst.extra.map Prod.fst =
          ["SMA_20", "SMA_50", "SMA_200", "RSI", "MACD", "Signal_Line",
            "BB_Middle", "BB_Upper", "BB_Lower"]) := by
  constructor
  · rfl
  · intro h
    rcases df with ⟨rows, extra⟩
    simp only at h
    subst h
    simp [calculate_technical_indicators, addCol, setCol]

/-- Witness for C2 at a one-bar series with no extra columns. -/
theorem c2_mutation_shape_witness :
    (calculate_technical_indicators ⟨[⟨1, 1, 1, 1, 1⟩], []⟩).fst.extra.map Prod.fst =
      ["SMA_20", "SMA_50", "SMA_200", "RSI", "MACD", "Signal_Line",
        "BB_Middle", "BB_Upper", "BB_Lower"] :=
  (c2_mutation_shape ⟨[⟨1, 1, 1, 1, 1⟩], []⟩).2 rfl

/-- C2 counterexample: the claim "after the call, the series has exactly
the bars, columns, and values it had before the call" is false — the
call adds columns to the caller's DataFrame. -/
theorem c2_counterexample :
    (calculate_technical_indicators ⟨[⟨1, 1, 1, 1, 1⟩], []⟩).fst ≠
      (⟨[⟨1, 1, 1, 1, 1⟩], []⟩ : DataFrame) := by
  intro h
  have h9 : (calculate_technical_indicators ⟨[⟨1, 1, 1, 1, 1⟩], []⟩).fst.extra.length = 9 := rfl
  rw [h] at h9
  simp at h9

/-- C3: for a series of at least 15 bars whose trailing-14 deltas are not
all zero, the returned RSI is in `[0, 100]`, and it is exactly 100 when
all trailing-14 deltas are nonnegative (zero average loss). -/
theorem c3_rsi_range (df : DataFrame) (r : Indicators)
    (hr : (calculate_technical_indicators df).snd = some r)
    (h15 : 15 ≤ (df.rows.map Bar.close).length)
    (hnd : ¬(∀ d ∈ trailing14 (df.rows.map Bar.close), d = 0)) :
    (∃ x : ℝ, r.rsi = some x ∧ 0 ≤ x ∧ x ≤ 100) ∧
      ((∀ d ∈ trailing14 (df.rows.map Bar.close), 0 ≤ d) → r.rsi = some 100) := by
  rw [calcTI_snd] at hr
  obtain ⟨b, hb, hrb⟩ := Option.map_eq_some'.mp hr
  subst hrb
  set closes := df.rows.map Bar.close with hcs
  set t := trailing14 closes with hts
  have htne : t ≠ [] := by
    intro hnil
    have := trailing14_length closes h15
    rw [← hts, hnil] at this
    simp at this
  have hrsi : (latestIndicators closes b).rsi =
      (rsiCombine (some (meanQ (t.map gainOfD))) (some (meanQ (t.map lossOfD)))).map
        (fun (q : ℚ) => (q : ℝ)) := by
    rw [latestIndicators_rsi, rsi_last closes h15]
  set G := meanQ (t.map gainOfD) with hGdef
  set L := meanQ (t.map lossOfD) with hLdef
  have hGnn : 0 ≤ G := by
    refine meanQ_nonneg _ ?_
    intro x hx
    obtain ⟨d, _, rfl⟩ := List.mem_map.mp hx
    exact gainOfD_nonneg d
  have hLnn : 0 ≤ L := by
    refine meanQ_nonneg _ ?_
    intro x hx
    obtain ⟨d, _, rfl⟩ := List.mem_map.mp hx
    exact lossOfD_nonneg d
  have hkey : ¬(G = 0 ∧ L = 0) := by
    rintro ⟨hG0, hL0⟩
    refine hnd ?_
    intro d hd
    have hgz := all_zero_of_meanQ_zero (t.map gainOfD)
      (by simpa using htne)
      (by intro x hx; obtain ⟨e, _, rfl⟩ := List.mem_map.mp hx; exact gainOfD_nonneg e)
      hG0 (gainOfD d) (List.mem_map_of_mem gainOfD hd)
    have hlz := all_zero_of_meanQ_zero (t.map lossOfD)
      (by simpa using htne)
      (by intro x hx; obtain ⟨e, _, rfl⟩ := List.mem_map.mp hx; exact lossOfD_nonneg e)
      hL0 (lossOfD d) (List.mem_map_of_mem lossOfD hd)
    exact eq_zero_of_parts d hgz hlz
  have hLzero_of_nonneg : (∀ d ∈ t, 0 ≤ d) → L = 0 := by
    intro hpos
    refine meanQ_of_all_zero _ ?_
    intro x hx
    obtain ⟨d, hd, rfl⟩ := List.mem_map.mp hx
    exact lossOfD_of_nonneg d (hpos d hd)
  by_cases hL : L = 0
  · have hG : G ≠ 0 := by
      intro hG0
      exact hkey ⟨hG0, hL⟩
    have hval : (latestIndicators closes b).rsi = some ((100 : ℚ) : ℝ) := by
      rw [hrsi, rsiCombine, if_pos hL, if_neg hG]
      rfl
    refine ⟨⟨((100 : ℚ) : ℝ), hval, by norm_num, by norm_num⟩, ?_⟩
    intro _
    rw [hval]
    norm_num
  · have hLpos : 0 < L := lt_of_le_of_ne hLnn (Ne.symm hL)
    have hq : 0 ≤ G / L := div_nonneg hGnn hLnn
    have hden : (0 : ℚ) < 1 + G / L := by linarith
    have hle : 100 / (1 + G / L) ≤ 100 := by
      rw [div_le_iff₀ hden]
      nlinarith
    have hpos : 0 < 100 / (1 + G / L) := by positivity
    have hval : (latestIndicators closes b).rsi =
        some (((100 - 100 / (1 + G / L) : ℚ)) : ℝ) := by
      rw [hrsi, rsiCombine, if_neg hL]
      rfl
    refine ⟨⟨((100 - 100 / (1 + G / L) : ℚ) : ℝ), hval, ?_, ?_⟩, ?_⟩
    · have : (0 : ℚ) ≤ 100 - 100 / (1 + G / L) := by linarith
      exact_mod_cast this
    · have : (100 - 100 / (1 + G / L) : ℚ) ≤ 100 := by linarith
      exact_mod_cast this
    · intro hposall
      exact absurd (hLzero_of_nonneg hposall) hL

/-- A fifteen-bar strictly increasing witness series for C3. -/
def wBar (q : ℚ) : Bar := ⟨q, q, q, q, q⟩

/-- Fifteen bars with closes 1, 2, ..., 15. -/
def wDf15 : DataFrame :=
  ⟨[wBar 1, wBar 2, wBar 3, wBar 4, wBar 5, wBar 6, wBar 7, wBar 8, wBar 9,
    wBar 10, wBar 11, wBar 12, wBar 13, wBar 14, wBar 15], []⟩

/-- Witness for C3 at a strictly increasing fifteen-bar series (RSI = 100). -/
theorem c3_rsi_range_witness :
    (∃ x : ℝ, (latestIndicators (wDf15.rows.map Bar.close) (wBar 15)).rsi = some x ∧
      0 ≤ x ∧ x ≤ 100) ∧
    (latestIndicators (wDf15.rows.map Bar.close) (wBar 15)).rsi = some 100 := by
  have h15 : 15 ≤ (wDf15.rows.map Bar.close).length := by
    norm_num [wDf15]
  have htr : trailing14 (wDf15.rows.map Bar.close) =
      [1, 1, 1, 1, 1, 1, 1, 1, 1, 1, 1, 1, 1, 1] := by
    norm_num [wDf15, wBar, trailing14, realDeltas, diffsFrom]
  have hnd : ¬(∀ d ∈ trailing14 (wDf15.rows.map Bar.close), d = 0) := by
    rw [htr]
    intro hall
    have := hall 1 (by simp)
    norm_num at this
  have hmain := c3_rsi_range wDf15 (latestIndicators (wDf15.rows.map Bar.close) (wBar 15))
    rfl h15 hnd
  refine ⟨hmain.1, hmain.2 ?_⟩
  rw [htr]
  intro d hd
  simp at hd
  rw [hd]
  norm_num

/-- The last MACD column entry is the difference of the two EMA
recurrences at the last bar. -/
theorem macdCol_getLast (closes : List ℚ) :
    (macdCol closes).getLast? =
      Option.map₂ (fun a b => a - b) (emaLastSpec (alphaOfSpan 12) closes)
        (emaLastSpec (alphaOfSpan 26) closes) := by
  cases closes with
  | nil => rfl
  | cons c cs =>
    have h12 := ewmList_getLast (alphaOfSpan 12) (c :: cs)
    have h26 := ewmList_getLast (alphaOfSpan 26) (c :: cs)
    have hlen : (ewmList (alphaOfSpan 12) (c :: cs)).length =
        (ewmList (alphaOfSpan 26) (c :: cs)).length := by
      simp [ewmList_length]
    rw [macdCol, getLast?_zipWith (fun x y => x - y) _ _ hlen _ _ h12 h26]
    rfl

/-- C7: the `macd` field is EMA(12) minus EMA(26) of close at the last
bar, with the spec recurrence (seeded by the first value, smoothing
`2/(span+1)`, no bias adjustment), and `signal_line` is the EMA(9) of
the MACD series at the last bar. -/
theorem c7_macd_signal (df : DataFrame) (r : Indicators)
    (hr : (calculate_technical_indicators df).snd = some r) :
    r.macd = Option.map₂ (fun a b => ((a - b : ℚ) : ℝ))
        (emaLastSpec (alphaOfSpan 12) (df.rows.map Bar.close))
        (emaLastSpec (alphaOfSpan 26) (df.rows.map Bar.close)) ∧
      r.signal_line =
        (emaLastSpec (alphaOfSpan 9) (macdCol (df.rows.map Bar.close))).map
          (fun (q : ℚ) => (q : ℝ)) := by
  rw [calcTI_snd] at hr
  obtain ⟨b, hb, hrb⟩ := Option.map_eq_some'.mp hr
  subst hrb
  constructor
  · rw [latestIndicators_macd, macdCol_getLast]
    rcases hcs : df.rows.map Bar.close with _ | ⟨c, cs⟩
    · rfl
    · rfl
  · rw [latestIndicators_signal, signalCol, ewmList_getLast]

/-- Last entry of an SMA column: mean of the trailing window once the
series is long enough, NaN before. -/
theorem smaCol_last (w : ℕ) (closes : List ℚ) (h : closes ≠ []) :
    lastOpt (smaCol w closes) =
      if w ≤ closes.length then some (meanQ (trailingWindow w closes)) else none := by
  rw [lastOpt, smaCol, rollingApply_getLast _ _ _ h]
  rfl

/-- Last entry of the Bollinger upper band column. -/
theorem bbUpperCol_last (closes : List ℚ) (h : closes ≠ []) :
    lastOptR (bbUpperCol closes) =
      if 20 ≤ closes.length then
        some ((meanQ (trailingWindow 20 closes) : ℝ) +
          2 * Real.sqrt ((sampleVarQ (trailingWindow 20 closes) : ℚ) : ℝ))
      else none := by
  have hm : (smaCol 20 closes).getLast? =
      some (if 20 ≤ closes.length
        then some (meanQ (closes.drop (closes.length - 20))) else none) := by
    rw [smaCol, rollingApply_getLast _ _ _ h]
  have hs : (stdCol closes).getLast? =
      some (Option.map (fun (v : ℚ) => Real.sqrt (v : ℝ))
        (if 20 ≤ closes.length
          then some (sampleVarQ (closes.drop (closes.length - 20))) else none)) := by
    rw [stdCol, List.getLast?_map, rollingApply_getLast _ _ _ h]
    rfl
  have hlen : (smaCol 20 closes).length = (stdCol closes).length := by
    simp [smaCol, stdCol, rollingApply_length]
  rw [lastOptR, bbUpperCol, getLast?_zipWith _ _ _ hlen _ _ hm hs]
  by_cases h20 : 20 ≤ closes.length
  · rw [if_pos h20, if_pos h20, if_pos h20]
    rfl
  · rw [if_neg h20, if_neg h20, if_neg h20]
    rfl

/-- Last entry of the Bollinger lower band column. -/
theorem bbLowerCol_last (closes : List ℚ) (h : closes ≠ []) :
    lastOptR (bbLowerCol closes) =
      if 20 ≤ closes.length then
        some ((meanQ (trailingWindow 20 closes) : ℝ) -
          2 * Real.sqrt ((sampleVarQ (trailingWindow 20 closes) : ℚ) : ℝ))
      else none := by
  have hm : (smaCol 20 closes).getLast? =
      some (if 20 ≤ closes.length
        then some (meanQ (closes.drop (closes.length - 20))) else none) := by
    rw [smaCol, rollingApply_getLast _ _ _ h]
  have hs : (stdCol closes).getLast? =
      some (Option.map (fun (v : ℚ) => Real.sqrt (v : ℝ))
        (if 20 ≤ closes.length
          then some (sampleVarQ (closes.drop (closes.length - 20))) else none)) := by
    rw [stdCol, List.getLast?_map, rollingApply_getLast _ _ _ h]
    rfl
  have hlen : (smaCol 20 closes).length = (stdCol closes).length := by
    simp [smaCol, stdCol, rollingApply_length]
  rw [lastOptR, bbLowerCol, getLast?_zipWith _ _ _ hlen _ _ hm hs]
  by_cases h20 : 20 ≤ closes.length
  · rw [if_pos h20, if_pos h20, if_pos h20]
    rfl
  · rw [if_neg h20, if_neg h20, if_neg h20]
    rfl

/-- A non-degenerate trailing window cannot have both a zero average
gain and a zero average loss. -/
theorem not_both_means_zero (closes : List ℚ) (h15 : 15 ≤ closes.length)
    (hnd : ¬(∀ d ∈ trailing14 closes, d = 0)) :
    ¬(meanQ ((trailing14 closes).map gainOfD) = 0 ∧
      meanQ ((trailing14 closes).map lossOfD) = 0) := by
  rintro ⟨hG0, hL0⟩
  have htne : trailing14 closes ≠ [] := by
    intro hnil
    have := trailing14_length closes h15
    rw [hnil] at this
    simp at this
  refine hnd ?_
  intro d hd
  have hgz := all_zero_of_meanQ_zero ((trailing14 closes).map gainOfD)
    (by simpa using htne)
    (by intro x hx; obtain ⟨e, _, rfl⟩ := List.mem_map.mp hx; exact gainOfD_nonneg e)
    hG0 (gainOfD d) (List.mem_map_of_mem gainOfD hd)
  have hlz := all_zero_of_meanQ_zero ((trailing14 closes).map lossOfD)
    (by simpa using htne)
    (by intro x hx; obtain ⟨e, _, rfl⟩ := List.mem_map.mp hx; exact lossOfD_nonneg e)
    hL0 (lossOfD d) (List.mem_map_of_mem lossOfD hd)
  exact eq_zero_of_parts d hgz hlz

/-- The RSI at the last bar is defined whenever the series has at least
15 bars and the trailing window is non-degenerate. -/
theorem rsi_last_isSome (closes : List ℚ) (h15 : 15 ≤ closes.length)
    (hnd : ¬(∀ d ∈ trailing14 closes, d = 0)) :
    (lastOpt (rsiCol closes)).isSome := by
  rw [rsi_last closes h15, rsiCombine]
  by_cases hL : meanQ ((trailing14 closes).map lossOfD) = 0
  · have hG : ¬(meanQ ((trailing14 closes).map gainOfD) = 0) := by
      intro hG0
      exact not_both_means_zero closes h15 hnd ⟨hG0, hL⟩
    rw [if_pos hL, if_neg hG]
    rfl
  · rw [if_neg hL]
    rfl

/-- C4 (amended): the SMA fields are the trailing-window means of close
when enough bars exist and NaN otherwise; the Bollinger middle band is
the SMA(20) value, and the upper and lower bands sit two trailing
sample standard deviations (ddof = 1) away; with at least 200 bars of
strictly positive closes, every field of the result other than the RSI
is non-null unconditionally, and the RSI too is non-null provided the
trailing-14 deltas are not all zero (on an all-flat tail the source's
`0/0` makes the RSI NaN). -/
theorem c4_sma_bollinger (df : DataFrame) (r : Indicators)
    (hr : (calculate_technical_indicators df).snd = some r) :
    ((20 ≤ (df.rows.map Bar.close).length →
        r.sma_20 = some ((meanQ (trailingWindow 20 (df.rows.map Bar.close)) : ℚ) : ℝ)) ∧
      (¬20 ≤ (df.rows.map Bar.close).length → r.sma_20 = none)) ∧
    ((50 ≤ (df.rows.map Bar.close).length →
        r.sma_50 = some ((meanQ (trailingWindow 50 (df.rows.map Bar.close)) : ℚ) : ℝ)) ∧
      (¬50 ≤ (df.rows.map Bar.close).length → r.sma_50 = none)) ∧
    ((200 ≤ (df.rows.map Bar.close).length →
        r.sma_200 = some ((meanQ (trailingWindow 200 (df.rows.map Bar.close)) : ℚ) : ℝ)) ∧
      (¬200 ≤ (df.rows.map Bar.close).length → r.sma_200 = none)) ∧
    r.bollinger_middle = r.sma_20 ∧
    ((20 ≤ (df.rows.map Bar.close).length →
        r.bollinger_upper =
          some ((meanQ (trailingWindow 20 (df.rows.map Bar.close)) : ℚ) +
            2 * Real.sqrt ((sampleVarQ (trailingWindow 20 (df.rows.map Bar.close)) : ℚ) : ℝ)) ∧
        r.bollinger_lower =
          some ((meanQ (trailingWindow 20 (df.rows.map Bar.close)) : ℚ) -
            2 * Real.sqrt ((sampleVarQ (trailingWindow 20 (df.rows.map Bar.close)) : ℚ) : ℝ))) ∧
      (¬20 ≤ (df.rows.map Bar.close).length →
        r.bollinger_upper = none ∧ r.bollinger_lower = none)) ∧
    (200 ≤ (df.rows.map Bar.close).length →
      (∀ x ∈ df.rows.map Bar.close, 0 < x) →
      (r.sma_20.isSome ∧ r.sma_50.isSome ∧ r.sma_200.isSome ∧
        r.macd.isSome ∧ r.signal_line.isSome ∧ r.bollinger_upper.isSome ∧
        r.bollinger_middle.isSome ∧ r.bollinger_lower.isSome) ∧
      (¬(∀ d ∈ trailing14 (df.rows.map Bar.close), d = 0) → r.rsi.isSome)) := by
  rw [calcTI_snd] at hr
  obtain ⟨b, hb, hrb⟩ := Option.map_eq_some'.mp hr
  subst hrb
  have hrowsne : df.rows ≠ [] := by
    intro hnil
    rw [hnil] at hb
    simp at hb
  have hne : df.rows.map Bar.close ≠ [] := by
    simpa using hrowsne
  set closes := df.rows.map Bar.close with hcs
  refine ⟨⟨?_, ?_⟩, ⟨?_, ?_⟩, ⟨?_, ?_⟩, ?_, ⟨?_, ?_⟩, ?_⟩
  · intro h20
    rw [latestIndicators_sma_20, smaCol_last 20 closes hne, if_pos h20]
    rfl
  · intro h20
    rw [latestIndicators_sma_20, smaCol_last 20 closes hne, if_neg h20]
    rfl
  · intro h50
    rw [latestIndicators_sma_50, smaCol_last 50 closes hne, if_pos h50]
    rfl
  · intro h50
    rw [latestIndicators_sma_50, smaCol_last 50 closes hne, if_neg h50]
    rfl
  · intro h200
    rw [latestIndicators_sma_200, smaCol_last 200 closes hne, if_pos h200]
    rfl
  · intro h200
    rw [latestIndicators_sma_200, smaCol_last 200 closes hne, if_neg h200]
    rfl
  · rw [latestIndicators_bb_mid, latestIndicators_sma_20]
  · intro h20
    rw [latestIndicators_bb_up, latestIndicators_bb_lo,
      bbUpperCol_last closes hne, bbLowerCol_last closes hne, if_pos h20, if_pos h20]
    exact ⟨rfl, rfl⟩
  · intro h20
    rw [latestIndicators_bb_up, latestIndicators_bb_lo,
      bbUpperCol_last closes hne, bbLowerCol_last closes hne, if_neg h20, if_neg h20]
    exact ⟨rfl, rfl⟩
  · intro h200 _
    have h15 : 15 ≤ closes.length := by omega
    have h20 : 20 ≤ closes.length := by omega
    have h50 : 50 ≤ closes.length := by omega
    have hmacdlen : (macdCol closes).length = closes.length := by
      simp [macdCol, ewmList_length, List.length_zipWith]
    have hmacdne : macdCol closes ≠ [] := by
      intro hnil
      rw [hnil] at hmacdlen
      simp at hmacdlen
      omega
    have hsiglen : (signalCol closes).length = closes.length := by
      rw [signalCol, ewmList_length, hmacdlen]
    have hsigne : signalCol closes ≠ [] := by
      intro hnil
      rw [hnil] at hsiglen
      simp at hsiglen
      omega
    refine ⟨⟨?_, ?_, ?_, ?_, ?_, ?_, ?_, ?_⟩, ?_⟩
    · rw [latestIndicators_sma_20, smaCol_last 20 closes hne, if_pos h20]
      rfl
    · rw [latestIndicators_sma_50, smaCol_last 50 closes hne, if_pos h50]
      rfl
    · rw [latestIndicators_sma_200, smaCol_last 200 closes hne, if_pos h200]
      rfl
    · rw [latestIndicators_macd]
      obtain ⟨v, hv⟩ := Option.isSome_iff_exists.mp (List.getLast?_isSome.mpr hmacdne)
      rw [hv]
      rfl
    · rw [latestIndicators_signal]
      obtain ⟨v, hv⟩ := Option.isSome_iff_exists.mp (List.getLast?_isSome.mpr hsigne)
      rw [hv]
      rfl
    · rw [latestIndicators_bb_up, bbUpperCol_last closes hne, if_pos h20]
      rfl
    · rw [latestIndicators_bb_mid, smaCol_last 20 closes hne, if_pos h20]
      rfl
    · rw [latestIndicators_bb_lo, bbLowerCol_last closes hne, if_pos h20]
      rfl
    · intro hnd
      rw [latestIndicators_rsi]
      obtain ⟨v, hv⟩ := Option.isSome_iff_exists.mp (rsi_last_isSome closes h15 hnd)
      rw [hv]
      rfl

/-- A one-bar series used to witness the NaN side of C4. -/
def wDf1 : DataFrame := ⟨[wBar 1], []⟩

/-- Witness for C4 at a one-bar series (all windowed fields NaN). -/
theorem c4_sma_bollinger_witness :
    (latestIndicators (wDf1.rows.map Bar.close) (wBar 1)).sma_20 = none ∧
    (latestIndicators (wDf1.rows.map Bar.close) (wBar 1)).bollinger_upper = none := by
  have h := c4_sma_bollinger wDf1 _ rfl
  have h20 : ¬20 ≤ (wDf1.rows.map Bar.close).length := by
    norm_num [wDf1]
  exact ⟨h.1.2 h20, ((h.2.2.2.2.1).2 h20).1⟩

theorem drop_replicate {α : Type} (m n : ℕ) (a : α) :
    (List.replicate n a).drop m = List.replicate (n - m) a := by
  induction n generalizing m with
  | zero => simp
  | succ k ih =>
    cases m with
    | zero => simp
    | succ j =>
      rw [List.replicate_succ, List.drop_succ_cons, ih j, Nat.succ_sub_succ]

theorem diffsFrom_const (l : List ℚ) (c : ℚ) (h : ∀ x ∈ l, x = c) :
    diffsFrom c l = List.replicate l.length 0 := by
  induction l with
  | nil => rfl
  | cons y ys ih =>
    have hy : y = c := h y (by simp)
    rw [diffsFrom, hy, sub_self, List.length_cons, List.replicate_succ]
    congr 1
    exact ih (fun x hx => h x (by simp [hx]))

/-- The 200-bar flat series with strictly positive closes. -/
def flatDf200 : DataFrame := ⟨List.replicate 200 (wBar 1), []⟩

/-- C4 counterexample: a 200-bar series of strictly positive closes for
which the returned RSI is NaN (`None`), refuting "for length ≥ 200 with
strictly positive closes every field of the result is non-null": on a
flat series the trailing average gain and loss are both zero and the
source computes `rs = 0/0 = NaN`. -/
theorem c4_counterexample :
    ((calculate_technical_indicators flatDf200).snd).map Indicators.rsi = some none ∧
    200 ≤ (flatDf200.rows.map Bar.close).length ∧
    (∀ x ∈ flatDf200.rows.map Bar.close, 0 < x) := by
  have hcl : flatDf200.rows.map Bar.close = List.replicate 200 (1 : ℚ) := by
    rw [flatDf200, List.map_replicate]
    rfl
  refine ⟨?_, ?_, ?_⟩
  · have h1 : realDeltas (List.replicate 200 (1 : ℚ)) = List.replicate 199 0 := by
      rw [show (200 : ℕ) = 199 + 1 from rfl, List.replicate_succ, realDeltas,
        diffsFrom_const (List.replicate 199 (1 : ℚ)) 1
          (fun x hx => List.eq_of_mem_replicate hx)]
      rw [List.length_replicate]
    have htr : trailing14 (List.replicate 200 (1 : ℚ)) = List.replicate 14 0 := by
      rw [trailing14, h1, drop_replicate]
      norm_num
    have hG : meanQ ((List.replicate 14 (0 : ℚ)).map gainOfD) = 0 := by
      rw [List.map_replicate]
      apply meanQ_of_all_zero
      intro x hx
      rw [List.eq_of_mem_replicate hx, gainOfD]
      norm_num
    have hL : meanQ ((List.replicate 14 (0 : ℚ)).map lossOfD) = 0 := by
      rw [List.map_replicate]
      apply meanQ_of_all_zero
      intro x hx
      rw [List.eq_of_mem_replicate hx, lossOfD]
      norm_num
    have hlast : flatDf200.rows.getLast? = some (wBar 1) := by
      rw [flatDf200, List.getLast?_replicate]
      norm_num
    have hs : (latestIndicators (List.replicate 200 (1 : ℚ)) (wBar 1)).rsi = none := by
      rw [latestIndicators_rsi, rsi_last _ (by norm_num), htr, hG, hL,
        rsiCombine, if_pos rfl, if_pos rfl]
      rfl
    rw [calcTI_snd, hlast, hcl, Option.map_some', Option.map_some', hs]
  · rw [hcl]
    norm_num
  · intro x hx
    rw [hcl] at hx
    rw [List.eq_of_mem_replicate hx]
    norm_num

/-- Every drawdown entry against a positive running peak lies in
`(-1, 0]`; stated with the peak state explicit for the induction. -/
theorem drawdown_bounds (l : List ℚ) :
    ∀ m : ℚ, 0 < m → (∀ p ∈ l, 0 < p) →
      ∀ x ∈ List.zipWith (fun p pk => (p - pk) / pk) l (runMaxFrom m l),
        -1 ≤ x ∧ x ≤ 0 := by
  induction l with
  | nil => intro m _ _ x hx; simp at hx
  | cons y ys ih =>
    intro m hm hpos x hx
    rw [runMaxFrom, List.zipWith_cons_cons] at hx
    have hy : 0 < y := hpos y (by simp)
    have hpk : 0 < max2 m y := by
      rw [max2_eq_max]
      exact lt_max_of_lt_left hm
    rcases List.mem_cons.mp hx with h1 | h2
    · subst h1
      have hyle : y ≤ max2 m y := by
        rw [max2_eq_max]
        exact le_max_right m y
      constructor
      · rw [le_div_iff₀ hpk]
        linarith
      · apply div_nonpos_of_nonpos_of_nonneg <;> linarith
    · exact ih (max2 m y) hpk (fun p hp => hpos p (by simp [hp])) x h2

/-- C5: on a nonempty series of strictly positive prices the maximum
drawdown is defined and lies in `[-1, 0]`; on the V-shaped series
`[100, 120, 80, 90]` it is exactly `(80 - 120)/120 = -1/3`. -/
theorem c5_max_drawdown (prices : List ℚ) (hne : prices ≠ [])
    (hpos : ∀ p ∈ prices, 0 < p) :
    (∃ d, calculate_max_drawdown prices = some d ∧ -1 ≤ d ∧ d ≤ 0) ∧
      calculate_max_drawdown [100, 120, 80, 90] = some (-(1 / 3)) := by
  constructor
  · rcases prices with _ | ⟨p0, ps⟩
    · exact absurd rfl hne
    · have hp0 : 0 < p0 := hpos p0 (by simp)
      rw [calculate_max_drawdown, runningMax, List.zipWith_cons_cons, minQ]
      refine ⟨_, rfl, ?_⟩
      have hmem := foldl_min2_mem
        (List.zipWith (fun p pk => (p - pk) / pk) ps (runMaxFrom p0 ps))
        ((p0 - p0) / p0)
      have hhead : (p0 - p0) / p0 = 0 := by
        rw [sub_self, zero_div]
      rcases hmem with h1 | h1
      · rw [h1, hhead]
        norm_num
      · exact drawdown_bounds ps p0 hp0 (fun p hp => hpos p (by simp [hp])) _ h1
  · norm_num [calculate_max_drawdown, minQ, runningMax, runMaxFrom, max2, min2]

/-- Witness for C5 at the single-bar series `[1]`. -/
theorem c5_max_drawdown_witness :
    (∃ d, calculate_max_drawdown [1] = some d ∧ -1 ≤ d ∧ d ≤ 0) ∧
      calculate_max_drawdown [100, 120, 80, 90] = some (-(1 / 3)) :=
  c5_max_drawdown [1] (by simp) (by norm_num)

theorem pctPairs_const (l : List ℚ) (c : ℚ) (hc : c ≠ 0) (h : ∀ x ∈ l, x = c) :
    pctPairs c l = List.replicate l.length 0 := by
  induction l with
  | nil => rfl
  | cons y ys ih =>
    have hy : y = c := h y (by simp)
    subst hy
    rw [pctPairs, if_neg hc, sub_self, zero_div, List.length_cons, List.replicate_succ]
    congr 1
    exact ih (fun x hx => h x (by simp [hx]))

theorem sampleVar_replicate_zero (k : ℕ) : sampleVarQ (List.replicate k 0) = 0 := by
  have hm : meanQ (List.replicate k (0 : ℚ)) = 0 :=
    meanQ_of_all_zero _ (fun x hx => List.eq_of_mem_replicate hx)
  rw [sampleVarQ, List.sum_eq_zero, zero_div]
  intro x hx
  obtain ⟨e, he, rfl⟩ := List.mem_map.mp hx
  rw [List.eq_of_mem_replicate he, hm]
  norm_num

theorem getD_zero_of_all (l : List ℚ) (i : ℕ) (h : ∀ x ∈ l, x = 0) :
    l.getD i 0 = 0 := by
  induction l generalizing i with
  | nil => simp
  | cons y ys ih =>
    cases i with
    | zero => exact h y (by simp)
    | succ j => exact ih j (fun x hx => h x (by simp [hx]))

theorem percentileQ_all_zero (q : ℚ) (xs : List ℚ) (hne : xs ≠ [])
    (hall : ∀ x ∈ xs, x = 0) : percentileQ q xs = some 0 := by
  rcases xs with _ | ⟨x, rest⟩
  · exact absurd rfl hne
  · have hsorted : ∀ y ∈ List.insertionSort (fun a b => a ≤ b) (x :: rest), y = 0 :=
      fun y hy => hall y ((List.mem_insertionSort _).mp hy)
    rw [percentileQ]
    congr 1
    simp only [percentileSorted]
    rw [getD_zero_of_all _ _ hsorted, getD_zero_of_all _ _ hsorted]
    ring

theorem runMaxFrom_const (l : List ℚ) (c : ℚ) (h : ∀ x ∈ l, x = c) :
    runMaxFrom c l = List.replicate l.length c := by
  induction l with
  | nil => rfl
  | cons y ys ih =>
    have hy : y = c := h y (by simp)
    subst hy
    have hmax : max2 y y = y := by
      rw [max2, if_pos le_rfl]
    rw [runMaxFrom, hmax, List.length_cons, List.replicate_succ]
    congr 1
    exact ih (fun x hx => h x (by simp [hx]))

theorem zipWith_dd_flat (l : List ℚ) (c : ℚ) (h : ∀ x ∈ l, x = c) :
    List.zipWith (fun p pk => (p - pk) / pk) l (List.replicate l.length c) =
      List.replicate l.length 0 := by
  induction l with
  | nil => rfl
  | cons y ys ih =>
    have hy : y = c := h y (by simp)
    subst hy
    rw [List.length_cons, List.replicate_succ, List.zipWith_cons_cons, sub_self,
      zero_div, List.replicate_succ]
    congr 1
    exact ih (fun x hx => h x (by simp [hx]))

theorem foldl_min2_zeros (k : ℕ) : (List.replicate k (0 : ℚ)).foldl min2 0 = 0 := by
  induction k with
  | zero => rfl
  | succ j ih =>
    have hm : min2 0 0 = 0 := by
      rw [min2, if_pos le_rfl]
    rw [List.replicate_succ, List.foldl_cons, hm, ih]

/-- Max drawdown of a flat series is zero. -/
theorem maxdd_flat (prices : List ℚ) (c : ℚ) (hne : prices ≠ [])
    (h : ∀ x ∈ prices, x = c) : calculate_max_drawdown prices = some 0 := by
  rcases prices with _ | ⟨p0, ps⟩
  · exact absurd rfl hne
  · have hp0 : p0 = c := h p0 (by simp)
    subst hp0
    have htail : ∀ x ∈ ps, x = p0 := fun x hx => (h x (by simp [hx])).trans rfl
    rw [calculate_max_drawdown, runningMax, runMaxFrom_const ps p0 htail,
      List.zipWith_cons_cons, zipWith_dd_flat ps p0 htail, sub_self, zero_div, minQ,
      foldl_min2_zeros]

/-- C6 (amended): on a flat series (all closes equal and nonzero) of at
least three bars, every risk metric is zero.  (With exactly two bars the
single return makes the ddof-1 standard deviation NaN, and with a zero
flat close the return series itself degenerates — see the
counterexample.) -/
theorem c6_flat_series (df : DataFrame) (c : ℚ) (hc : c ≠ 0)
    (h3 : 3 ≤ df.rows.length) (hflat : ∀ b ∈ df.rows, b.close = c) :
    calculate_volatility_metrics df =
      some { daily_volatility := some 0, annualized_volatility := some 0,
             var_95 := 0, var_99 := 0, max_drawdown := some 0 } := by
  have hall : ∀ x ∈ df.rows.map Bar.close, x = c := by
    intro x hx
    obtain ⟨b, hb, rfl⟩ := List.mem_map.mp hx
    exact hflat b hb
  have hlen : (df.rows.map Bar.close).length = df.rows.length := by
    simp
  rcases hcs : df.rows.map Bar.close with _ | ⟨c0, cs⟩
  · rw [hcs] at hlen
    simp at hlen
    omega
  · have hk : 2 ≤ cs.length := by
      rw [hcs] at hlen
      simp at hlen
      omega
    have hc0 : c0 = c := hall c0 (by rw [hcs]; simp)
    have hret : pctChangeDropna (df.rows.map Bar.close) = List.replicate cs.length 0 := by
      rw [hcs, pctChangeDropna, hc0, pctPairs_const cs c hc]
      intro x hx
      exact hall x (by rw [hcs]; simp [hx])
    have hvar : sampleVarOpt (List.replicate cs.length 0) = some 0 := by
      rw [sampleVarOpt, if_neg (by rw [List.length_replicate]; omega),
        sampleVar_replicate_zero]
    have hperc5 : percentileQ 5 (List.replicate cs.length 0) = some 0 :=
      percentileQ_all_zero 5 _
        (by intro h0; rw [List.replicate_eq_nil_iff] at h0; omega)
        (fun x hx => List.eq_of_mem_replicate hx)
    have hperc1 : percentileQ 1 (List.replicate cs.length 0) = some 0 :=
      percentileQ_all_zero 1 _
        (by intro h0; rw [List.replicate_eq_nil_iff] at h0; omega)
        (fun x hx => List.eq_of_mem_replicate hx)
    have hdd : calculate_max_drawdown (df.rows.map Bar.close) = some 0 :=
      maxdd_flat _ c (by rw [hcs]; simp) hall
    rw [calculate_volatility_metrics]
    rw [hret, if_neg (by intro h0; rw [List.replicate_eq_nil_iff] at h0; omega),
      hvar, hperc5, hperc1, hdd]
    simp

/-- The three-bar flat witness series for C6. -/
def wFlat3 : DataFrame := ⟨[wBar 2, wBar 2, wBar 2], []⟩

/-- Witness for C6 at a three-bar flat series with close 2. -/
theorem c6_flat_series_witness :
    calculate_volatility_metrics wFlat3 =
      some { daily_volatility := some 0, annualized_volatility := some 0,
             var_95 := 0, var_99 := 0, max_drawdown := some 0 } :=
  c6_flat_series wFlat3 2 (by norm_num) (by norm_num [wFlat3])
    (by
      intro b hb
      simp [wFlat3] at hb
      subst hb
      rfl)

/-- The two-bar flat series on which C6 as stated fails. -/
def wFlat2 : DataFrame := ⟨[wBar 1, wBar 1], []⟩

/-- C6 counterexample: on a flat series of exactly two bars the claim
"returns zero daily volatility" fails — the single return makes the
ddof-1 standard deviation NaN (`none`), not zero. -/
theorem c6_counterexample :
    (calculate_volatility_metrics wFlat2).map RiskMetrics.daily_volatility = some none ∧
      some (none : Option ℝ) ≠ some (some (0 : ℝ)) := by
  constructor
  · rfl
  · simp

/-- A two-bar witness series for C7. -/
def wDf2 : DataFrame := ⟨[wBar 1, wBar 2], []⟩

/-- Witness for C7 at a two-bar series. -/
theorem c7_macd_signal_witness :
    (latestIndicators (wDf2.rows.map Bar.close) (wBar 2)).macd =
      Option.map₂ (fun a b => ((a - b : ℚ) : ℝ))
        (emaLastSpec (alphaOfSpan 12) (wDf2.rows.map Bar.close))
        (emaLastSpec (alphaOfSpan 26) (wDf2.rows.map Bar.close)) ∧
    (latestIndicators (wDf2.rows.map Bar.close) (wBar 2)).signal_line =
      (emaLastSpec (alphaOfSpan 9) (macdCol (wDf2.rows.map Bar.close))).map
        (fun (q : ℚ) => (q : ℝ)) :=
  c7_macd_signal wDf2 _ rfl

/-!  ### SnapshotStore lemmas and claims -/

theorem prefixHolds_append (p r : List Char) : prefixHolds p (p ++ r) = true := by
  induction p with
  | nil => rfl
  | cons a as ih => simp [prefixHolds, ih]

theorem suffixHolds_append (l s : List Char) : suffixHolds s (l ++ s) = true := by
  rw [suffixHolds, List.reverse_append]
  exact prefixHolds_append s.reverse l.reverse

/-- A freshly written file name matches its own glob pattern. -/
theorem globMatch_mkFileName (sym pre : String) (t : ℤ) :
    globMatch sym pre (mkFileName sym pre t) = true := by
  have hdata : (mkFileName sym pre t).data =
      (sym ++ "_" ++ pre ++ "_").data ++ ((toString t).data ++ ".json".data) := by
    simp [mkFileName, String.data_append, List.append_assoc]
  have h5 : (".json" : String).data.length = 5 := rfl
  rw [globMatch, hdata]
  simp only [Bool.and_eq_true]
  refine ⟨⟨prefixHolds_append _ _, ?_⟩, ?_⟩
  · rw [← List.append_assoc]
    exact suffixHolds_append _ _
  · rw [decide_eq_true_eq]
    simp only [List.length_append, h5]
    omega

theorem pickLatest_mem (rest : List FileEntry) :
    ∀ f : FileEntry, pickLatest f rest ∈ f :: rest := by
  induction rest with
  | nil => intro f; simp [pickLatest]
  | cons r rs ih =>
    intro f
    have heq : pickLatest f (r :: rs) =
        pickLatest (if f.ctime < r.ctime then r else f) rs := rfl
    rw [heq]
    rcases List.mem_cons.mp (ih (if f.ctime < r.ctime then r else f)) with h | h
    · by_cases hc : f.ctime < r.ctime
      · rw [if_pos hc] at h
        rw [if_pos hc, h]
        simp
      · rw [if_neg hc] at h
        rw [if_neg hc, h]
        simp
    · by_cases hc : f.ctime < r.ctime
      · rw [if_pos hc] at h ⊢
        simp [h]
      · rw [if_neg hc] at h ⊢
        simp [h]

/-- Python's `max` picks a strictly newer file appended at the end of
the glob listing. -/
theorem pickLatest_concat (f : FileEntry) (rest : List FileEntry) (b : FileEntry)
    (h : ∀ x ∈ f :: rest, x.ctime < b.ctime) : pickLatest f (rest ++ [b]) = b := by
  rw [pickLatest, List.foldl_append]
  have hp := pickLatest_mem rest f
  rw [pickLatest] at hp
  have hlt := h _ hp
  simp only [List.foldl_cons, List.foldl_nil]
  rw [if_pos hlt]

/-- The file entry written by `store_json_info` at clock `now`. -/
def newFile (sym pre : String) (now : ℤ) (info : Json) : FileEntry :=
  ⟨mkFileName sym pre now, now, info, true⟩

/-- C8 (amended): `store` immediately followed by `readLatest` for the
same `(symbol, category)` returns exactly the stored payload, provided
every pre-existing file matching the glob pattern
`{symbol}_{category}_*.json` has a strictly older creation time.  (As
stated — allowing intervening writes for other pairs — the claim fails,
because a different pair's filename can match the same glob; see the
counterexample.) -/
theorem c8_store_read (fs : List FileEntry) (now : ℤ) (info : Json) (sym pre : String)
    (h : ∀ f ∈ fs, globMatch sym pre f.name = true → f.ctime < now) :
    read_latest_json_file (store_json_info fs now info (some sym) pre).fst sym pre =
      some info := by
  have hfst : (store_json_info fs now info (some sym) pre).fst =
      fs ++ [newFile sym pre now info] := rfl
  rw [read_latest_json_file, find_latest_json_file, hfst, List.filter_append]
  have hfe : List.filter (fun f => globMatch sym pre f.name) [newFile sym pre now info] =
      [newFile sym pre now info] := by
    simp [List.filter, newFile, globMatch_mkFileName]
  rw [hfe]
  rcases hfil : fs.filter (fun f => globMatch sym pre f.name) with _ | ⟨f0, rest⟩
  · rw [hfil, List.nil_append]
    rfl
  · rw [hfil]
    simp only [List.cons_append]
    have hcond : ∀ x ∈ f0 :: rest, x.ctime < (newFile sym pre now info).ctime := by
      intro x hx
      have hx2 : x ∈ fs.filter (fun f => globMatch sym pre f.name) := by
        rw [hfil]
        exact hx
      have hmem := List.mem_filter.mp hx2
      exact h x hmem.1 (by simpa using hmem.2)
    show some (pickLatest f0 (rest ++ [newFile sym pre now info])).content = some info
    rw [pickLatest_concat f0 rest _ hcond]
    rfl

/-- Witness for C8: store into an empty directory, then read back. -/
theorem c8_store_read_witness :
    read_latest_json_file (store_json_info [] 0 Json.null (some "A") "ci").fst "A" "ci" =
      some Json.null :=
  c8_store_read [] 0 Json.null "A" "ci" (by intro f hf; simp at hf)

/-- Directory after writing payload "first" for `(AAPL, ci)` at time 1. -/
def fsC8a : List FileEntry :=
  (store_json_info [] 1 (Json.str "first") (some "AAPL") "ci").fst

/-- ... then payload "second" for the distinct pair `(AAPL, ci_x)` at
time 2. -/
def fsC8b : List FileEntry :=
  (store_json_info fsC8a 2 (Json.str "second") (some "AAPL") "ci_x").fst

/-- C8 counterexample: an intervening write for a different
`(symbol, category)` pair — here `(AAPL, ci_x)` — produces the file
`AAPL_ci_x_2.json`, which matches the glob `AAPL_ci_*.json`, is newer,
and is returned by `readLatest("AAPL", "ci")` in place of the payload
stored for `(AAPL, ci)`. -/
theorem c8_counterexample :
    read_latest_json_file fsC8b "AAPL" "ci" = some (Json.str "second") ∧
      some (Json.str "second") ≠ some (Json.str "first") := by
  constructor
  · rfl
  · simp

/-- C9 (amended): `delete_old_files` removes exactly the *`.json`* files
(glob `*.json`; names of other shapes are never touched) older than the
cutoff whose removal succeeds, keeps everything else (per-file `OSError`
is swallowed: a non-deletable old file stays), never fails as a whole,
and returns the number of files actually deleted. -/
theorem c9_purge (fs : List FileEntry) (now : ℤ) (days : ℕ) :
    (∀ f ∈ fs, matchPlainJson f.name = true → f.ctime < now - (days : ℤ) →
      f.deletable = true → f ∉ (delete_old_files fs now days).fst) ∧
    (∀ f ∈ fs, ¬(matchPlainJson f.name = true ∧ f.ctime < now - (days : ℤ) ∧
      f.deletable = true) → f ∈ (delete_old_files fs now days).fst) ∧
    (delete_old_files fs now days).snd =
      ((fs.filter (fun f => matchPlainJson f.name)).filter
        (fun f => decide (f.ctime < now - (days : ℤ)) && f.deletable)).length := by
  refine ⟨?_, ?_, ?_⟩
  · intro f hf h1 h2 h3 hmem
    have hcond := (List.mem_filter.mp hmem).2
    simp [h1, h2, h3] at hcond
  · intro f hf hn
    apply List.mem_filter.mpr
    refine ⟨hf, ?_⟩
    show (!(matchPlainJson f.name && decide (f.ctime < now - (days : ℤ)) &&
      f.deletable)) = true
    cases hq : (matchPlainJson f.name && decide (f.ctime < now - (days : ℤ)) &&
      f.deletable) with
    | false => rfl
    | true =>
      rw [Bool.and_eq_true, Bool.and_eq_true] at hq
      exact absurd ⟨hq.1.1, of_decide_eq_true hq.1.2, hq.2⟩ hn
  · rfl

/-- The four-file directory used to witness C9: an old deletable
snapshot, an old snapshot whose removal fails, a fresh snapshot, and an
old non-JSON file. -/
def fsC9w : List FileEntry :=
  [⟨"a.json", 0, Json.null, true⟩, ⟨"b.json", 0, Json.null, false⟩,
   ⟨"c.json", 95, Json.null, true⟩, ⟨"old.txt", 0, Json.null, true⟩]

/-- Witness for C9: the old deletable snapshot goes, the old
undeletable one stays, and exactly one deletion is counted. -/
theorem c9_purge_witness :
    (⟨"a.json", 0, Json.null, true⟩ : FileEntry) ∉ (delete_old_files fsC9w 100 10).fst ∧
    (⟨"b.json", 0, Json.null, false⟩ : FileEntry) ∈ (delete_old_files fsC9w 100 10).fst ∧
    (delete_old_files fsC9w 100 10).snd = 1 := by
  refine ⟨?_, ?_, ?_⟩
  · exact (c9_purge fsC9w 100 10).1 _ (by simp [fsC9w]) rfl (by decide) rfl
  · exact (c9_purge fsC9w 100 10).2.1 _ (by simp [fsC9w])
      (by rintro ⟨-, -, hC⟩; simp at hC)
  · rfl

/-- The directory holding one stale non-JSON file. -/
def fsC9 : List FileEntry := [⟨"old.txt", 0, Json.null, true⟩]

/-- C9 counterexample: a stale file whose name does not match `*.json`
("old.txt", well past the cutoff, removable) is not deleted and not
counted, refuting "deletes every file in the directory whose creation
time is older than the threshold". -/
theorem c9_counterexample :
    (delete_old_files fsC9 100 10).fst = fsC9 ∧
      (delete_old_files fsC9 100 10).snd = 0 ∧
      ((0 : ℤ) < 100 - ((10 : ℕ) : ℤ)) := by
  refine ⟨rfl, rfl, by decide⟩

/-- C10: with the symbol argument omitted, the filename's symbol
component comes from the payload's `symbol` field when present (via
Python `str()`), and is the literal `"unknown"` otherwise; the payload
itself is written unchanged in both cases. -/
theorem c10_symbol_fallback (fs : List FileEntry) (now : ℤ) (info : Json) (pre : String) :
    (∀ v, jsonGet info "symbol" = some v →
      store_json_info fs now info none pre =
        (fs ++ [newFile (pyStr v) pre now info], mkFileName (pyStr v) pre now)) ∧
    (jsonGet info "symbol" = none →
      store_json_info fs now info none pre =
        (fs ++ [newFile "unknown" pre now info], mkFileName "unknown" pre now)) := by
  constructor
  · intro v hv
    simp only [store_json_info, newFile, hv]
  · intro hv
    simp only [store_json_info, newFile, hv]

/-- Witness for C10 at a payload carrying `symbol = "TSLA"` and at one
with no symbol field. -/
theorem c10_symbol_fallback_witness :
    store_json_info [] 0 (Json.obj [("symbol", Json.str "TSLA")]) none "ci" =
      ([newFile (pyStr (Json.str "TSLA")) "ci" 0 (Json.obj [("symbol", Json.str "TSLA")])],
        mkFileName (pyStr (Json.str "TSLA")) "ci" 0) ∧
    store_json_info [] 0 (Json.obj []) none "ci" =
      ([newFile "unknown" "ci" 0 (Json.obj [])], mkFileName "unknown" "ci" 0) :=
  ⟨(c10_symbol_fallback [] 0 (Json.obj [("symbol", Json.str "TSLA")]) "ci").1
      (Json.str "TSLA") rfl,
    (c10_symbol_fallback [] 0 (Json.obj []) "ci").2 rfl⟩

end FinAgent
